import Mathlib

/-!
Shallow embedding of the Wave Function Collapse core of this repository
(src/wfc/tiles.py and src/wfc/core.py), together with theorems settling
the frozen claims about it.

Modelling conventions:
* Python `int` is `Int`; loop counters and set cardinalities are `Nat`.
* A Python `set` of tile types is a `Finset TileType`.
* The adjacency dictionary `self.constraints` is a function
  `TileType → Finset TileType`: `constraints.get(t, set())` is exactly
  application of that function, with absent keys mapped to `∅`.
* The mutable grid (`self.grid`, a list of rows indexed `grid[y][x]`,
  holding one `Cell` per in-bounds coordinate) is a total function
  `Coord → Cell`; every read in the source goes through the bounds check
  of `get_cell`, so values outside the bounds are never consulted.
  In-place mutation of a cell becomes a pointwise functional update.
* `next(iter(s))` is `s.toList.head?`; the `none` case models the
  `StopIteration` that Python would raise on an empty set.
* Fallible paths (uncaught exceptions in the source) are `Option`:
  a `none` result of an embedded operation marks a path on which the
  Python original raises.
* The global `random` module is an explicit stream of naturals
  (`RState`); `random.choice(seq)` picks the element indexed by the next
  stream value modulo the length, and advances the stream.  Seeding with
  a fixed seed fixes the stream.
* `list(s)` for a Python set `s` enumerates `s` in an order that depends
  on the interpreter's hash state (CPython `Enum` members hash by name,
  and string hashing is randomized per process), not only on the
  mathematical set.  The embedding therefore takes the enumeration
  function as an explicit parameter `EnumOrder`; `validEnumOrder`
  states the only property Python guarantees, namely that the
  enumeration lists exactly the members of the set.
* Status strings returned by `generate_step`/printed by `generate` are
  presentation only and are dropped; the `Bool` component is kept.
-/

/-- The tile-type enumeration of src/wfc/tiles.py (`class TileType`). -/
inductive TileType where
  | GRASS
  | WATER
  | SAND
  | FOREST
  | MOUNTAIN
  | STONE
  | SNOW
deriving DecidableEq, Fintype, Repr

open TileType

/-- Insertion order of the `self.tiles` dictionary in `TileSet.__init__`. -/
def tileTypeList : List TileType :=
  [GRASS, WATER, SAND, FOREST, MOUNTAIN, STONE, SNOW]

/-- Executable enumeration of a finite set of tile types (the domain has
seven elements, all listed in `tileTypeList`), used wherever the source
iterates over a Python set whose order is irrelevant to the result. -/
def finsetToList (s : Finset TileType) : List TileType :=
  tileTypeList.filter fun t => decide (t ∈ s)

/-- `class TileSet` of src/wfc/tiles.py.  `tiles` is the key set of the
`self.tiles` catalog (the `Tile` values carry only display metadata —
color and name — which no claim mentions); `constraints` is the adjacency
dictionary, absent keys mapped to `∅` as `dict.get(t, set())` does. -/
structure TileSet where
  tiles : Finset TileType
  constraints : TileType → Finset TileType

/-- `TileSet.get_valid_neighbors`: `self.constraints.get(tile_type, set())`. -/
def TileSet.get_valid_neighbors (ts : TileSet) (t : TileType) : Finset TileType :=
  ts.constraints t

/-- `TileSet.can_be_adjacent`: `tile2 in self.constraints.get(tile1, set())`. -/
def TileSet.can_be_adjacent (ts : TileSet) (t1 t2 : TileType) : Bool :=
  decide (t2 ∈ ts.constraints t1)

/-- `TileSet.get_all_types`: `set(self.tiles.keys())`. -/
def TileSet.get_all_types (ts : TileSet) : Finset TileType :=
  ts.tiles

/-- `TileSet.validate_constraints`: for every declared pair `A → B`,
`B → A` must also be declared and `B` must exist in the tile catalog;
returns `false` on the first violation, else `true`.  The Python loop
runs over the keys of the `constraints` dictionary; keys mapped to `∅`
contribute no pair, so iterating over the whole (finite) tile domain is
the same check. -/
def TileSet.validate_constraints (ts : TileSet) : Bool :=
  tileTypeList.all fun t =>
    (finsetToList (ts.constraints t)).all fun n =>
      decide (t ∈ ts.constraints n) && decide (n ∈ ts.tiles)

/-- The full tile catalog built by `TileSet.__init__` (all seven types). -/
def allTileTypes : Finset TileType :=
  {GRASS, WATER, SAND, FOREST, MOUNTAIN, STONE, SNOW}

/-- The default `TileSet()` of src/wfc/tiles.py: the full catalog and the
adjacency dictionary of `TileSet.__init__`, transcribed set for set.
Note that the source declares `SNOW → STONE` but not `STONE → SNOW`. -/
def defaultTileSet : TileSet where
  tiles := allTileTypes
  constraints := fun t =>
    match t with
    | GRASS => {GRASS, FOREST, MOUNTAIN, SAND, STONE}
    | WATER => {WATER, SAND}
    | SAND => {SAND, WATER, GRASS, STONE}
    | FOREST => {FOREST, GRASS, MOUNTAIN, STONE}
    | MOUNTAIN => {MOUNTAIN, GRASS, FOREST, STONE, SNOW}
    | STONE => {STONE, MOUNTAIN, GRASS, FOREST, SAND}
    | SNOW => {SNOW, MOUNTAIN, STONE}

/-- `BiomeTileSet.create_ocean_biome()`: the base catalog with the
constraints dictionary replaced wholesale; keys absent from the new
dictionary map to `∅`. -/
def oceanBiomeTileSet : TileSet where
  tiles := allTileTypes
  constraints := fun t =>
    match t with
    | WATER => {WATER, SAND}
    | SAND => {SAND, WATER, GRASS}
    | GRASS => {GRASS, SAND, FOREST}
    | FOREST => {FOREST, GRASS}
    | _ => ∅

/-- Grid coordinates `(x, y)`. -/
abbrev Coord := Int × Int

/-- `class Cell` of src/wfc/core.py. -/
structure Cell where
  x : Int
  y : Int
  possibilities : Finset TileType
  collapsed : Bool
deriving DecidableEq

/-- `Cell.entropy`: `len(self.possibilities) if not self.collapsed else 0`. -/
def Cell.entropy (c : Cell) : Nat :=
  if c.collapsed then 0 else c.possibilities.card

/-- `Cell.collapse_to`: returns the Python return value together with the
cell after the call (the source mutates `self` in place). -/
def Cell.collapse_to (c : Cell) (t : TileType) : Bool × Cell :=
  if t ∈ c.possibilities then
    (true, { c with possibilities := {t}, collapsed := true })
  else
    (false, c)

/-- The stream of values produced by the seeded global `random` module:
`r n` is the `n`-th value the generator will hand out.  A fixed seed
fixes the whole stream. -/
def RState : Type := Nat → Nat

/-- The all-zeros stream, used as a concrete seeded generator. -/
def rngZero : RState := fun _ => 0

/-- `random.choice(seq)`: picks the element indexed by the next stream
value modulo `seq`'s length and advances the stream; `none` models the
`IndexError` Python raises on an empty sequence. -/
def randChoice {α : Type} (l : List α) (r : RState) : Option (α × RState) :=
  match l with
  | [] => none
  | a :: _ => some (l.getD (r 0 % l.length) a, fun n => r (n + 1))

/-- How the interpreter enumerates a Python set of tile types into a list
(`list(s)`).  CPython fixes such an order per process from its hash
state; it is not a function of the solver's constructor arguments. -/
def EnumOrder : Type := Finset TileType → List TileType

/-- The one property Python guarantees of `list(s)`: the list enumerates
exactly the members of `s`. -/
def validEnumOrder (e : EnumOrder) : Prop :=
  ∀ s : Finset TileType, ∀ t : TileType, t ∈ e s ↔ t ∈ s

/-- A concrete enumeration order (one possible interpreter hash state). -/
def enumAsc : EnumOrder := finsetToList

/-- Another concrete enumeration order (a different hash state). -/
def enumDesc : EnumOrder := fun s => (finsetToList s).reverse

/-- `class WaveFunctionCollapse` of src/wfc/core.py: the instance state
set up by `__init__`. -/
structure WaveFunctionCollapse where
  width : Int
  height : Int
  tileset : TileSet
  grid : Coord → Cell
  generation_step : Nat
  max_retries : Nat

namespace WaveFunctionCollapse

/-- Bounds check plus lookup on a bare grid function (the body of
`get_cell`, usable mid-propagation where the grid is threaded alone). -/
def cellAt (w h : Int) (grid : Coord → Cell) (c : Coord) : Option Cell :=
  if 0 ≤ c.1 ∧ c.1 < w ∧ 0 ≤ c.2 ∧ c.2 < h then some (grid c) else none

/-- `get_cell`: the cell at `(x, y)`, or `None` out of bounds. -/
def get_cell (s : WaveFunctionCollapse) (x y : Int) : Option Cell :=
  cellAt s.width s.height s.grid (x, y)

/-- `get_neighbors` restricted to what it needs (width/height): the
in-bounds 4-directional neighbors of `(x, y)`, offsets in source order. -/
def neighborCoords (w h : Int) (x y : Int) : List Coord :=
  [((0 : Int), (1 : Int)), (0, -1), (1, 0), (-1, 0)].filterMap fun d =>
    if 0 ≤ x + d.1 ∧ x + d.1 < w ∧ 0 ≤ y + d.2 ∧ y + d.2 < h then
      some (x + d.1, y + d.2)
    else
      none

/-- `get_neighbors`. -/
def get_neighbors (s : WaveFunctionCollapse) (x y : Int) : List Coord :=
  neighborCoords s.width s.height x y

/-- `initialize_grid`: every cell gets the full type catalog and the
collapsed flag cleared; the step counter resets.  The Python loop builds
exactly the in-bounds cells; the total function agrees with it there. -/
def initialize_grid (s : WaveFunctionCollapse) : WaveFunctionCollapse :=
  { s with
    grid := fun c =>
      { x := c.1, y := c.2, possibilities := s.tileset.get_all_types, collapsed := false }
    generation_step := 0 }

/-- The grid cells in the iteration order of `for row in self.grid: for
cell in row` (row-major: `y` outer, `x` inner). -/
def gridCellsList (s : WaveFunctionCollapse) : List Cell :=
  (List.range s.height.toNat).flatMap fun y =>
    (List.range s.width.toNat).map fun x => s.grid ((x : Int), (y : Int))

/-- `is_complete`: all cells collapsed. -/
def is_complete (s : WaveFunctionCollapse) : Bool :=
  (gridCellsList s).all fun c => c.collapsed

/-- `has_contradiction`: some uncollapsed cell with no possibilities. -/
def has_contradiction (s : WaveFunctionCollapse) : Bool :=
  (gridCellsList s).any fun c => !c.collapsed && decide (c.possibilities = ∅)

/-- `get_tile_at`.  The outer `Option` layer marks the uncaught
`StopIteration` Python would raise on a collapsed cell whose candidate
set is empty (`none`); `some none` is Python's `None` return. -/
def get_tile_at (s : WaveFunctionCollapse) (x y : Int) : Option (Option TileType) :=
  match get_cell s x y with
  | some cell =>
      if cell.collapsed then
        match (finsetToList cell.possibilities).head? with
        | some t => some (some t)
        | none => none
      else
        some none
  | none => some none

end WaveFunctionCollapse

namespace WaveFunctionCollapse

/-- The in-bounds coordinates of a `w × h` grid as a finite set (used to
bound the breadth-first propagation: each coordinate is processed at
most once thanks to the `visited` set). -/
def boundsFinset (w h : Int) : Finset Coord :=
  Finset.Icc 0 (w - 1) ×ˢ Finset.Icc 0 (h - 1)

/-- The admissible type set the source computes for a neighbor of
`cur` (`valid_for_neighbor` in `propagate_constraints`): the valid
neighbors of the single collapsed type, or the union over `cur`'s
possibilities.  `none` models the `StopIteration` of
`next(iter(current_cell.possibilities))` on a collapsed cell whose
candidate set is empty. -/
def validForNeighbor (ts : TileSet) (cur : Cell) : Option (Finset TileType) :=
  if cur.collapsed then
    match (finsetToList cur.possibilities).head? with
    | some t => some (ts.get_valid_neighbors t)
    | none => none
  else
    some ((finsetToList cur.possibilities).foldl
      (fun acc t => acc ∪ ts.get_valid_neighbors t) ∅)

/-- The inner `for nx, ny in self.get_neighbors(x, y)` loop of
`propagate_constraints`, threading the grid through the successive
in-place updates.  `Except.error g` is the source's early `return False`
after an intersection emptied a neighbor's candidate set (the grid `g`
already holds that emptied set, as in the source); `Except.ok (g, enq)`
carries the updated grid and the coordinates enqueued because their set
shrank, in enqueue order.  `none` models the `StopIteration` path of
`validForNeighbor`. -/
def propStep (w h : Int) (ts : TileSet) (cur : Cell) (grid : Coord → Cell) :
    List Coord → Option (Except (Coord → Cell) ((Coord → Cell) × List Coord))
  | [] => some (Except.ok (grid, []))
  | n :: ns =>
    match cellAt w h grid n with
    | none => propStep w h ts cur grid ns
    | some nb =>
      if nb.collapsed then
        propStep w h ts cur grid ns
      else
        match validForNeighbor ts cur with
        | none => none
        | some valid =>
          let newPoss := nb.possibilities ∩ valid
          let grid' := fun c => if c = n then { nb with possibilities := newPoss } else grid c
          if newPoss = ∅ then
            some (Except.error grid')
          else if newPoss = nb.possibilities then
            propStep w h ts cur grid' ns
          else
            match propStep w h ts cur grid' ns with
            | none => none
            | some (Except.error g) => some (Except.error g)
            | some (Except.ok (g, enq)) => some (Except.ok (g, n :: enq))

/-- The `while queue:` loop of `propagate_constraints`.  The `fuel`
argument only bounds the iteration count; `propFuel` below always
exceeds the loop's true bound (established by `propLoop_spec`), so the
`none` returned on exhaustion is unreachable from
`propagate_constraints`.  A popped coordinate already visited is
skipped; an out-of-bounds one (`get_cell` returned `None`) is marked
visited and skipped; otherwise its neighbors are filtered and the
shrunk ones are appended to the queue. -/
def propLoop (w h : Int) (ts : TileSet) :
    Nat → List Coord → Finset Coord → (Coord → Cell) → Option (Bool × (Coord → Cell))
  | _, [], _, grid => some (true, grid)
  | 0, _ :: _, _, _ => none
  | fuel + 1, c :: rest, visited, grid =>
    if c ∈ visited then
      propLoop w h ts fuel rest visited grid
    else
      match cellAt w h grid c with
      | none => propLoop w h ts fuel rest (insert c visited) grid
      | some cur =>
        match propStep w h ts cur grid (neighborCoords w h c.1 c.2) with
        | none => none
        | some (Except.error g') => some (false, g')
        | some (Except.ok (g', enq)) =>
            propLoop w h ts fuel (rest ++ enq) (insert c visited) g'

/-- Potential of a loop configuration: every iteration of `propLoop`
strictly decreases it (pops one queue element; pushes at most four, and
only while also consuming an unvisited in-bounds coordinate, of which
there are at most `(boundsFinset w h).card`). -/
def propMeasure (w h : Int) (queue : List Coord) (visited : Finset Coord) : Nat :=
  queue.length + 5 * ((boundsFinset w h) \ visited).card

/-- Fuel that the loop can never exhaust: the potential of the initial
configuration (queue `[(start_x, start_y)]`, nothing visited). -/
def propFuel (w h : Int) : Nat :=
  1 + 5 * (boundsFinset w h).card

/-- `propagate_constraints`: breadth-first constraint propagation from
`(start_x, start_y)`.  Returns the Python return value together with the
grid after the call; `none` marks the `StopIteration` path (a collapsed
cell with an empty candidate set), which Python does not catch. -/
def propagate_constraints (s : WaveFunctionCollapse) (start_x start_y : Int) :
    Option (Bool × WaveFunctionCollapse) :=
  match propLoop s.width s.height s.tileset (propFuel s.width s.height)
      [(start_x, start_y)] ∅ s.grid with
  | none => none
  | some (b, g) => some (b, { s with grid := g })

/-- The accumulation loop of `find_min_entropy_cells`: `m` is the running
minimum (`none` is the initial `float('inf')`), `cand` the running
candidate list. -/
def findMinLoop : List Cell → Option Nat → List Cell → Option Nat × List Cell
  | [], m, cand => (m, cand)
  | c :: cs, m, cand =>
    if c.collapsed = false ∧ 0 < c.entropy then
      match m with
      | none => findMinLoop cs (some c.entropy) [c]
      | some me =>
        if c.entropy < me then findMinLoop cs (some c.entropy) [c]
        else if c.entropy = me then findMinLoop cs (some me) (cand ++ [c])
        else findMinLoop cs (some me) cand
    else
      findMinLoop cs m cand

/-- `find_min_entropy_cells`: all uncollapsed cells of minimum positive
entropy, in grid iteration order. -/
def find_min_entropy_cells (s : WaveFunctionCollapse) : List Cell :=
  (findMinLoop (gridCellsList s) none []).2

/-- `collapse_cell`: `False` on an empty candidate set, `True` without
consuming randomness on an already collapsed cell, otherwise collapse to
a uniformly chosen member of `list(cell.possibilities)` (enumerated by
`e`).  Returns the Python boolean, the cell after the call, and the
advanced stream; `none` models the `IndexError` of `random.choice` on an
empty list, impossible for a valid enumeration of a nonempty set. -/
def collapse_cell (e : EnumOrder) (c : Cell) (r : RState) :
    Option (Bool × Cell × RState) :=
  if c.possibilities = ∅ then
    some (false, c, r)
  else if c.collapsed then
    some (true, c, r)
  else
    match randChoice (e c.possibilities) r with
    | none => none
    | some (t, r') =>
      let res := c.collapse_to t
      some (res.1, res.2, r')

/-- `generate_step`: one step of generation.  The returned `Bool` is the
`continue_generation` flag (status strings dropped).  The chosen cell is
written back at its stored coordinates, which is where the source's
in-place mutation lands for every grid produced by `initialize_grid`
(cells carry the coordinates they occupy). -/
def generate_step (e : EnumOrder) (s : WaveFunctionCollapse) (r : RState) :
    Option (Bool × WaveFunctionCollapse × RState) :=
  let s1 := { s with generation_step := s.generation_step + 1 }
  if has_contradiction s1 then some (false, s1, r)
  else if is_complete s1 then some (false, s1, r)
  else
    match randChoice (find_min_entropy_cells s1) r with
    | none => some (false, s1, r)
    | some (chosen, r1) =>
      match collapse_cell e chosen r1 with
      | none => none
      | some (false, _, r2) => some (false, s1, r2)
      | some (true, cell', r2) =>
        let s2 := { s1 with
          grid := fun c => if c = (chosen.x, chosen.y) then cell' else s1.grid c }
        match propagate_constraints s2 chosen.x chosen.y with
        | none => none
        | some (ok, s3) => some (ok, s3, r2)

/-- The inner `for step in range(max_steps)` loop of `generate`: run
steps until one reports stop, then the attempt succeeds exactly when the
grid is complete; exhausting the step budget fails the attempt.  The
first component of the result is the attempt's success. -/
def genSteps (e : EnumOrder) : Nat → WaveFunctionCollapse → RState →
    Option (Bool × WaveFunctionCollapse × RState)
  | 0, s, r => some (false, s, r)
  | n + 1, s, r =>
    match generate_step e s r with
    | none => none
    | some (cont, s', r') =>
      if cont then genSteps e n s' r' else some (is_complete s', s', r')

/-- The outer `for attempt in range(self.max_retries)` loop of
`generate`: each attempt reinitializes the grid and runs the step loop;
the first success returns `True`, exhaustion returns `False`. -/
def genAttempts (e : EnumOrder) (max_steps : Nat) : Nat → WaveFunctionCollapse →
    RState → Option (Bool × WaveFunctionCollapse × RState)
  | 0, s, r => some (false, s, r)
  | k + 1, s, r =>
    match genSteps e max_steps (initialize_grid s) r with
    | none => none
    | some (true, s', r') => some (true, s', r')
    | some (false, s', r') => genAttempts e max_steps k s' r'

/-- `generate(max_steps=10000)`: up to `max_retries` attempts, each from
a freshly reinitialized grid. -/
def generate (e : EnumOrder) (s : WaveFunctionCollapse) (r : RState)
    (max_steps : Nat := 10000) : Option (Bool × WaveFunctionCollapse × RState) :=
  genAttempts e max_steps s.max_retries s r

/-- `res = true` exactly when, within the first `k` attempts, stepping a
freshly reinitialized grid halts with a complete grid inside the step
budget `ms`; the stream is threaded from each failed attempt into the
next, as the global `random` module carries its state across attempts. -/
inductive AttemptsSucceed (e : EnumOrder) (ms : Nat) :
    Nat → WaveFunctionCollapse → RState → Prop where
  | here {k : Nat} {s sf : WaveFunctionCollapse} {r rf : RState} :
      genSteps e ms (initialize_grid s) r = some (true, sf, rf) →
      AttemptsSucceed e ms (k + 1) s r
  | later {k : Nat} {s sf : WaveFunctionCollapse} {r rf : RState} :
      genSteps e ms (initialize_grid s) r = some (false, sf, rf) →
      AttemptsSucceed e ms k sf rf →
      AttemptsSucceed e ms (k + 1) s r

end WaveFunctionCollapse

/-- `ValueError("Invalid tileset constraints")` raised by
`WaveFunctionCollapse.__init__` (the spec's ConfigurationError). -/
inductive ConfigErr where
  | invalidTileset
deriving DecidableEq, Repr

/-- `WaveFunctionCollapse.__init__`: store the parameters, validate the
tileset (raising on failure, before any grid exists), then initialize
the grid.  The placeholder grid stands for the initial empty list
`self.grid = []`; `initialize_grid` overwrites it entirely.  The
`random.seed(seed)` call is the external seeding of the stream `RState`
that the stepping operations take explicitly. -/
def mkWaveFunctionCollapse (width height : Int) (tileset : TileSet) :
    Except ConfigErr WaveFunctionCollapse :=
  if tileset.validate_constraints then
    Except.ok (WaveFunctionCollapse.initialize_grid
      { width := width
        height := height
        tileset := tileset
        grid := fun _ => { x := 0, y := 0, possibilities := ∅, collapsed := false }
        generation_step := 0
        max_retries := 10 })
  else
    Except.error ConfigErr.invalidTileset

/-- A 2 × 1 grid freshly initialized from the default tileset (the state
`initialize_grid` produces for those dimensions; the constructor itself
would reject this tileset, see `mk_wfc_witness`). -/
def twoByOneDefault : WaveFunctionCollapse :=
  WaveFunctionCollapse.initialize_grid
    { width := 2
      height := 1
      tileset := defaultTileSet
      grid := fun _ => { x := 0, y := 0, possibilities := ∅, collapsed := false }
      generation_step := 0
      max_retries := 10 }

/-- `twoByOneDefault` after manually collapsing cell `(0, 0)` to WATER
with `Cell.collapse_to` (writing the returned cell back in place). -/
def twoByOneWaterCollapsed : WaveFunctionCollapse :=
  { twoByOneDefault with
    grid := fun c =>
      if c = ((0 : Int), (0 : Int)) then
        ((twoByOneDefault.grid (0, 0)).collapse_to TileType.WATER).2
      else
        twoByOneDefault.grid c }

/-- The solver state `WaveFunctionCollapse(1, 1, ocean_biome)` constructs
(this tileset passes validation, see `mk_wfc_witness`). -/
def oceanSolver : WaveFunctionCollapse :=
  WaveFunctionCollapse.initialize_grid
    { width := 1
      height := 1
      tileset := oceanBiomeTileSet
      grid := fun _ => { x := 0, y := 0, possibilities := ∅, collapsed := false }
      generation_step := 0
      max_retries := 10 }

/-- The condition `not cell.collapsed and cell.entropy > 0` under which
`find_min_entropy_cells` considers a cell. -/
def eligibleCell (c : Cell) : Prop :=
  c.collapsed = false ∧ 0 < c.entropy

instance (c : Cell) : Decidable (eligibleCell c) :=
  inferInstanceAs (Decidable (_ ∧ _))

/-! ## Theorems -/

theorem mem_tileTypeList (t : TileType) : t ∈ tileTypeList := by
  cases t <;> decide

theorem mem_finsetToList {s : Finset TileType} {t : TileType} :
    t ∈ finsetToList s ↔ t ∈ s := by
  simp [finsetToList, List.mem_filter, mem_tileTypeList]

theorem mem_boundsFinset {w h : Int} {c : Coord} :
    c ∈ WaveFunctionCollapse.boundsFinset w h ↔
      0 ≤ c.1 ∧ c.1 < w ∧ 0 ≤ c.2 ∧ c.2 < h := by
  simp only [WaveFunctionCollapse.boundsFinset, Finset.mem_product, Finset.mem_Icc]
  omega

theorem cellAt_eq_some {w h : Int} {grid : Coord → Cell} {c : Coord} {cell : Cell} :
    WaveFunctionCollapse.cellAt w h grid c = some cell ↔
      (c ∈ WaveFunctionCollapse.boundsFinset w h ∧ cell = grid c) := by
  rw [mem_boundsFinset]
  unfold WaveFunctionCollapse.cellAt
  split
  · simp_all [eq_comm]
  · simp_all

theorem findMinLoop_cons (c : Cell) (cs : List Cell) (m : Option Nat)
    (cand : List Cell) :
    WaveFunctionCollapse.findMinLoop (c :: cs) m cand =
      if c.collapsed = false ∧ 0 < c.entropy then
        match m with
        | none => WaveFunctionCollapse.findMinLoop cs (some c.entropy) [c]
        | some me =>
          if c.entropy < me then
            WaveFunctionCollapse.findMinLoop cs (some c.entropy) [c]
          else if c.entropy = me then
            WaveFunctionCollapse.findMinLoop cs (some me) (cand ++ [c])
          else
            WaveFunctionCollapse.findMinLoop cs (some me) cand
      else
        WaveFunctionCollapse.findMinLoop cs m cand := rfl

/-- Loop invariant of `find_min_entropy_cells`: after scanning a prefix
`P`, the running minimum `m` is `none` exactly while no eligible cell
was seen, otherwise it is the least eligible entropy in `P` and `cand`
collects exactly the eligible cells of `P` attaining it. -/
theorem findMinLoop_spec :
    ∀ (L P : List Cell) (m : Option Nat) (cand : List Cell),
      (m = none → cand = [] ∧ ∀ c ∈ P, ¬eligibleCell c) →
      (∀ me, m = some me →
        (∃ c ∈ P, eligibleCell c ∧ c.entropy = me) ∧
        (∀ c ∈ P, eligibleCell c → me ≤ c.entropy) ∧
        (∀ c, c ∈ cand ↔ (c ∈ P ∧ eligibleCell c ∧ c.entropy = me))) →
      ((WaveFunctionCollapse.findMinLoop L m cand).1 = none →
        (WaveFunctionCollapse.findMinLoop L m cand).2 = [] ∧
        ∀ c ∈ P ++ L, ¬eligibleCell c) ∧
      (∀ me, (WaveFunctionCollapse.findMinLoop L m cand).1 = some me →
        (∃ c ∈ P ++ L, eligibleCell c ∧ c.entropy = me) ∧
        (∀ c ∈ P ++ L, eligibleCell c → me ≤ c.entropy) ∧
        (∀ c, c ∈ (WaveFunctionCollapse.findMinLoop L m cand).2 ↔
          (c ∈ P ++ L ∧ eligibleCell c ∧ c.entropy = me))) := by
  intro L
  induction L with
  | nil =>
    intro P m cand h0 h1
    simpa [WaveFunctionCollapse.findMinLoop] using ⟨h0, h1⟩
  | cons c cs ih =>
    intro P m cand h0 h1
    have hPc : ∀ x : Cell, x ∈ P ++ c :: cs ↔ x ∈ (P ++ [c]) ++ cs := by
      intro x
      simp [List.mem_append, or_assoc]
    by_cases hc : eligibleCell c
    · have hcq : c.collapsed = false ∧ 0 < c.entropy := hc
      cases m with
      | none =>
        have hcase :
            WaveFunctionCollapse.findMinLoop (c :: cs) none cand =
              WaveFunctionCollapse.findMinLoop cs (some c.entropy) [c] := by
          rw [findMinLoop_cons, if_pos hcq]
        rw [hcase]
        obtain ⟨hcand, hPnone⟩ := h0 rfl
        have h0' : (some c.entropy = none → ([c] : List Cell) = [] ∧
            ∀ x ∈ P ++ [c], ¬eligibleCell x) := by
          intro h
          exact absurd h (by simp)
        have h1' : ∀ me, some c.entropy = some me →
            (∃ x ∈ P ++ [c], eligibleCell x ∧ x.entropy = me) ∧
            (∀ x ∈ P ++ [c], eligibleCell x → me ≤ x.entropy) ∧
            (∀ x, x ∈ ([c] : List Cell) ↔
              (x ∈ P ++ [c] ∧ eligibleCell x ∧ x.entropy = me)) := by
          intro me hme
          injection hme with hme
          subst hme
          refine ⟨⟨c, by simp, hc, rfl⟩, ?_, ?_⟩
          · intro x hx hxe
            rcases List.mem_append.mp hx with hxP | hxc
            · exact absurd hxe (hPnone x hxP)
            · simp at hxc
              subst hxc
              exact le_refl _
          · intro x
            simp only [List.mem_singleton, List.mem_append]
            constructor
            · intro hx
              subst hx
              exact ⟨Or.inr (by simp), hc, rfl⟩
            · rintro ⟨hx | hx, hxe, hxent⟩
              · exact absurd hxe (hPnone x hx)
              · simpa using hx
        have := ih (P ++ [c]) (some c.entropy) [c] h0' h1'
        constructor
        · intro hn
          obtain ⟨ha, hb⟩ := this.1 hn
          exact ⟨ha, fun x hx => hb x ((hPc x).mp hx)⟩
        · intro me hme
          obtain ⟨⟨x0, hx0, hx0e⟩, hb, hcnd⟩ := this.2 me hme
          exact ⟨⟨x0, (hPc x0).mpr hx0, hx0e⟩,
            fun x hx => hb x ((hPc x).mp hx),
            fun x => (hcnd x).trans (by rw [hPc x])⟩
      | some me =>
        obtain ⟨⟨c0, hc0, hc0e, hc0ent⟩, hbound, hcand⟩ := h1 me rfl
        rcases lt_trichotomy c.entropy me with hlt | heq | hgt
        · have hcase :
              WaveFunctionCollapse.findMinLoop (c :: cs) (some me) cand =
                WaveFunctionCollapse.findMinLoop cs (some c.entropy) [c] := by
            rw [findMinLoop_cons, if_pos hcq]
            exact if_pos hlt
          rw [hcase]
          have h0' : (some c.entropy = none → ([c] : List Cell) = [] ∧
              ∀ x ∈ P ++ [c], ¬eligibleCell x) := by
            intro h
            exact absurd h (by simp)
          have h1' : ∀ ne, some c.entropy = some ne →
              (∃ x ∈ P ++ [c], eligibleCell x ∧ x.entropy = ne) ∧
              (∀ x ∈ P ++ [c], eligibleCell x → ne ≤ x.entropy) ∧
              (∀ x, x ∈ ([c] : List Cell) ↔
                (x ∈ P ++ [c] ∧ eligibleCell x ∧ x.entropy = ne)) := by
            intro ne hne
            injection hne with hne
            subst hne
            refine ⟨⟨c, by simp, hc, rfl⟩, ?_, ?_⟩
            · intro x hx hxe
              rcases List.mem_append.mp hx with hxP | hxc
              · exact le_of_lt (lt_of_lt_of_le hlt (hbound x hxP hxe))
              · simp at hxc
                subst hxc
                exact le_refl _
            · intro x
              simp only [List.mem_singleton, List.mem_append]
              constructor
              · intro hx
                subst hx
                exact ⟨Or.inr (by simp), hc, rfl⟩
              · rintro ⟨hx | hx, hxe, hxent⟩
                · have := hbound x hx hxe
                  omega
                · simpa using hx
          have := ih (P ++ [c]) (some c.entropy) [c] h0' h1'
          constructor
          · intro hn
            obtain ⟨ha, hb⟩ := this.1 hn
            exact ⟨ha, fun x hx => hb x ((hPc x).mp hx)⟩
          · intro ne hne
            obtain ⟨⟨x0, hx0, hx0e⟩, hb, hcnd⟩ := this.2 ne hne
            exact ⟨⟨x0, (hPc x0).mpr hx0, hx0e⟩,
              fun x hx => hb x ((hPc x).mp hx),
              fun x => (hcnd x).trans (by rw [hPc x])⟩
        · have hcase :
              WaveFunctionCollapse.findMinLoop (c :: cs) (some me) cand =
                WaveFunctionCollapse.findMinLoop cs (some me) (cand ++ [c]) := by
            rw [findMinLoop_cons, if_pos hcq]
            exact (if_neg (by omega)).trans (if_pos heq)
          rw [hcase]
          have h0' : (some me = none → (cand ++ [c]) = [] ∧
              ∀ x ∈ P ++ [c], ¬eligibleCell x) := by
            intro h
            exact absurd h (by simp)
          have h1' : ∀ ne, some me = some ne →
              (∃ x ∈ P ++ [c], eligibleCell x ∧ x.entropy = ne) ∧
              (∀ x ∈ P ++ [c], eligibleCell x → ne ≤ x.entropy) ∧
              (∀ x, x ∈ cand ++ [c] ↔
                (x ∈ P ++ [c] ∧ eligibleCell x ∧ x.entropy = ne)) := by
            intro ne hne
            injection hne with hne
            subst hne
            refine ⟨⟨c0, by simp [hc0], hc0e, hc0ent⟩, ?_, ?_⟩
            · intro x hx hxe
              rcases List.mem_append.mp hx with hxP | hxc
              · exact hbound x hxP hxe
              · simp at hxc
                subst hxc
                omega
            · intro x
              simp only [List.mem_append, List.mem_singleton]
              constructor
              · rintro (hx | hx)
                · obtain ⟨hxP, hxe, hxent⟩ := (hcand x).mp hx
                  exact ⟨Or.inl hxP, hxe, hxent⟩
                · subst hx
                  exact ⟨Or.inr rfl, hc, heq⟩
              · rintro ⟨hx | hx, hxe, hxent⟩
                · exact Or.inl ((hcand x).mpr ⟨hx, hxe, hxent⟩)
                · exact Or.inr hx
          have := ih (P ++ [c]) (some me) (cand ++ [c]) h0' h1'
          constructor
          · intro hn
            obtain ⟨ha, hb⟩ := this.1 hn
            exact ⟨ha, fun x hx => hb x ((hPc x).mp hx)⟩
          · intro ne hne
            obtain ⟨⟨x0, hx0, hx0e⟩, hb, hcnd⟩ := this.2 ne hne
            exact ⟨⟨x0, (hPc x0).mpr hx0, hx0e⟩,
              fun x hx => hb x ((hPc x).mp hx),
              fun x => (hcnd x).trans (by rw [hPc x])⟩
        · have hcase :
              WaveFunctionCollapse.findMinLoop (c :: cs) (some me) cand =
                WaveFunctionCollapse.findMinLoop cs (some me) cand := by
            rw [findMinLoop_cons, if_pos hcq]
            exact (if_neg (by omega)).trans (if_neg (by omega))
          rw [hcase]
          have h0' : (some me = none → cand = [] ∧
              ∀ x ∈ P ++ [c], ¬eligibleCell x) := by
            intro h
            exact absurd h (by simp)
          have h1' : ∀ ne, some me = some ne →
              (∃ x ∈ P ++ [c], eligibleCell x ∧ x.entropy = ne) ∧
              (∀ x ∈ P ++ [c], eligibleCell x → ne ≤ x.entropy) ∧
              (∀ x, x ∈ cand ↔
                (x ∈ P ++ [c] ∧ eligibleCell x ∧ x.entropy = ne)) := by
            intro ne hne
            injection hne with hne
            subst hne
            refine ⟨⟨c0, by simp [hc0], hc0e, hc0ent⟩, ?_, ?_⟩
            · intro x hx hxe
              rcases List.mem_append.mp hx with hxP | hxc
              · exact hbound x hxP hxe
              · simp at hxc
                subst hxc
                omega
            · intro x
              rw [hcand x]
              simp only [List.mem_append, List.mem_singleton]
              constructor
              · rintro ⟨hxP, hxe, hxent⟩
                exact ⟨Or.inl hxP, hxe, hxent⟩
              · rintro ⟨hx | hx, hxe, hxent⟩
                · exact ⟨hx, hxe, hxent⟩
                · subst hx
                  omega
          have := ih (P ++ [c]) (some me) cand h0' h1'
          constructor
          · intro hn
            obtain ⟨ha, hb⟩ := this.1 hn
            exact ⟨ha, fun x hx => hb x ((hPc x).mp hx)⟩
          · intro ne hne
            obtain ⟨⟨x0, hx0, hx0e⟩, hb, hcnd⟩ := this.2 ne hne
            exact ⟨⟨x0, (hPc x0).mpr hx0, hx0e⟩,
              fun x hx => hb x ((hPc x).mp hx),
              fun x => (hcnd x).trans (by rw [hPc x])⟩
    · have hcq : ¬(c.collapsed = false ∧ 0 < c.entropy) := hc
      have hcase :
          WaveFunctionCollapse.findMinLoop (c :: cs) m cand =
            WaveFunctionCollapse.findMinLoop cs m cand := by
        rw [findMinLoop_cons, if_neg hcq]
      rw [hcase]
      have h0' : (m = none → cand = [] ∧ ∀ x ∈ P ++ [c], ¬eligibleCell x) := by
        intro h
        obtain ⟨ha, hb⟩ := h0 h
        refine ⟨ha, fun x hx => ?_⟩
        rcases List.mem_append.mp hx with hxP | hxc
        · exact hb x hxP
        · simp at hxc
          subst hxc
          exact hc
      have h1' : ∀ ne, m = some ne →
          (∃ x ∈ P ++ [c], eligibleCell x ∧ x.entropy = ne) ∧
          (∀ x ∈ P ++ [c], eligibleCell x → ne ≤ x.entropy) ∧
          (∀ x, x ∈ cand ↔ (x ∈ P ++ [c] ∧ eligibleCell x ∧ x.entropy = ne)) := by
        intro ne hne
        obtain ⟨⟨x0, hx0, hx0e⟩, hb, hcnd⟩ := h1 ne hne
        refine ⟨⟨x0, by simp [hx0], hx0e⟩, ?_, ?_⟩
        · intro x hx hxe
          rcases List.mem_append.mp hx with hxP | hxc
          · exact hb x hxP hxe
          · simp at hxc
            subst hxc
            exact absurd hxe hc
        · intro x
          rw [hcnd x]
          simp only [List.mem_append, List.mem_singleton]
          constructor
          · rintro ⟨hxP, hxe, hxent⟩
            exact ⟨Or.inl hxP, hxe, hxent⟩
          · rintro ⟨hx | hx, hxe, hxent⟩
            · exact ⟨hx, hxe, hxent⟩
            · subst hx
              exact absurd hxe hc
      have := ih (P ++ [c]) m cand h0' h1'
      constructor
      · intro hn
        obtain ⟨ha, hb⟩ := this.1 hn
        exact ⟨ha, fun x hx => hb x ((hPc x).mp hx)⟩
      · intro ne hne
        obtain ⟨⟨x0, hx0, hx0e⟩, hb, hcnd⟩ := this.2 ne hne
        exact ⟨⟨x0, (hPc x0).mpr hx0, hx0e⟩,
          fun x hx => hb x ((hPc x).mp hx),
          fun x => (hcnd x).trans (by rw [hPc x])⟩

/-- C4: `find_min_entropy_cells` returns exactly the uncollapsed cells
of positive entropy whose entropy attains the minimum over all such
cells — every tied cell included, none excluded by position. -/
theorem find_min_entropy_cells_spec (s : WaveFunctionCollapse) (c : Cell) :
    c ∈ s.find_min_entropy_cells ↔
      (c ∈ s.gridCellsList ∧ c.collapsed = false ∧ 0 < c.entropy ∧
        ∀ c' ∈ s.gridCellsList, c'.collapsed = false → 0 < c'.entropy →
          c.entropy ≤ c'.entropy) := by
  have base := findMinLoop_spec (s.gridCellsList) [] none []
    (fun _ => ⟨rfl, by simp⟩) (fun me hme => by simp at hme)
  unfold WaveFunctionCollapse.find_min_entropy_cells
  rcases hm : (WaveFunctionCollapse.findMinLoop s.gridCellsList none []).1 with
    _ | me
  · obtain ⟨ha, hb⟩ := base.1 hm
    rw [ha]
    simp only [List.not_mem_nil, false_iff]
    rintro ⟨hcL, hcc, hce, _⟩
    exact hb c (by simpa using hcL) ⟨hcc, hce⟩
  · obtain ⟨⟨x0, hx0, hx0e, hx0ent⟩, hb, hcnd⟩ := base.2 me hm
    rw [hcnd c]
    simp only [List.nil_append] at hx0 hb hcnd ⊢
    constructor
    · rintro ⟨hcL, hce, hcent⟩
      refine ⟨hcL, hce.1, hce.2, fun c' hc' hc'c hc'e => ?_⟩
      rw [hcent]
      exact hb c' hc' ⟨hc'c, hc'e⟩
    · rintro ⟨hcL, hcc, hce, hmin⟩
      refine ⟨hcL, ⟨hcc, hce⟩, ?_⟩
      have h1 : me ≤ c.entropy := hb c hcL ⟨hcc, hce⟩
      have h2 : c.entropy ≤ x0.entropy := hmin x0 hx0 hx0e.1 hx0e.2
      omega

theorem find_min_entropy_cells_witness :
    (twoByOneDefault.grid (0, 0)) ∈ twoByOneDefault.find_min_entropy_cells ↔
      ((twoByOneDefault.grid (0, 0)) ∈ twoByOneDefault.gridCellsList ∧
        (twoByOneDefault.grid (0, 0)).collapsed = false ∧
        0 < (twoByOneDefault.grid (0, 0)).entropy ∧
        ∀ c' ∈ twoByOneDefault.gridCellsList, c'.collapsed = false →
          0 < c'.entropy →
          (twoByOneDefault.grid (0, 0)).entropy ≤ c'.entropy) :=
  find_min_entropy_cells_spec twoByOneDefault (twoByOneDefault.grid (0, 0))

theorem finsetToList_eq_nil {s : Finset TileType} :
    finsetToList s = [] ↔ s = ∅ := by
  constructor
  · intro h
    refine Finset.eq_empty_iff_forall_not_mem.mpr fun t ht => ?_
    have := mem_finsetToList.mpr ht
    rw [h] at this
    exact absurd this (List.not_mem_nil t)
  · intro h
    subst h
    decide

theorem validForNeighbor_isSome (ts : TileSet) {cur : Cell}
    (hcur : cur.collapsed = true → cur.possibilities ≠ ∅) :
    ∃ v, WaveFunctionCollapse.validForNeighbor ts cur = some v := by
  unfold WaveFunctionCollapse.validForNeighbor
  by_cases hc : cur.collapsed = true
  · rw [if_pos hc]
    rcases hl : (finsetToList cur.possibilities).head? with _ | t
    · rw [List.head?_eq_none_iff] at hl
      exact absurd (finsetToList_eq_nil.mp hl) (hcur hc)
    · exact ⟨_, rfl⟩
  · rw [if_neg hc]
    exact ⟨_, rfl⟩

theorem neighborCoords_length_le (w h x y : Int) :
    (WaveFunctionCollapse.neighborCoords w h x y).length ≤ 4 :=
  le_trans (List.length_filterMap_le _ _) (by simp)

theorem propStep_cons (w h : Int) (ts : TileSet) (cur : Cell)
    (grid : Coord → Cell) (n : Coord) (ns : List Coord) :
    WaveFunctionCollapse.propStep w h ts cur grid (n :: ns) =
      match WaveFunctionCollapse.cellAt w h grid n with
      | none => WaveFunctionCollapse.propStep w h ts cur grid ns
      | some nb =>
        if nb.collapsed then
          WaveFunctionCollapse.propStep w h ts cur grid ns
        else
          match WaveFunctionCollapse.validForNeighbor ts cur with
          | none => none
          | some valid =>
            if nb.possibilities ∩ valid = ∅ then
              some (Except.error fun c =>
                if c = n then { nb with possibilities := nb.possibilities ∩ valid }
                else grid c)
            else if nb.possibilities ∩ valid = nb.possibilities then
              WaveFunctionCollapse.propStep w h ts cur
                (fun c =>
                  if c = n then { nb with possibilities := nb.possibilities ∩ valid }
                  else grid c) ns
            else
              match WaveFunctionCollapse.propStep w h ts cur
                  (fun c =>
                    if c = n then { nb with possibilities := nb.possibilities ∩ valid }
                    else grid c) ns with
              | none => none
              | some (Except.error g) => some (Except.error g)
              | some (Except.ok (g, enq)) => some (Except.ok (g, n :: enq)) := rfl

theorem propLoop_nil (w h : Int) (ts : TileSet) (fuel : Nat)
    (visited : Finset Coord) (grid : Coord → Cell) :
    WaveFunctionCollapse.propLoop w h ts fuel [] visited grid = some (true, grid) := by
  cases fuel <;> rfl

theorem propLoop_cons (w h : Int) (ts : TileSet) (fuel : Nat) (c : Coord)
    (rest : List Coord) (visited : Finset Coord) (grid : Coord → Cell) :
    WaveFunctionCollapse.propLoop w h ts (fuel + 1) (c :: rest) visited grid =
      if c ∈ visited then
        WaveFunctionCollapse.propLoop w h ts fuel rest visited grid
      else
        match WaveFunctionCollapse.cellAt w h grid c with
        | none =>
          WaveFunctionCollapse.propLoop w h ts fuel rest (insert c visited) grid
        | some cur =>
          match WaveFunctionCollapse.propStep w h ts cur grid
              (WaveFunctionCollapse.neighborCoords w h c.1 c.2) with
          | none => none
          | some (Except.error g') => some (false, g')
          | some (Except.ok (g', enq)) =>
            WaveFunctionCollapse.propLoop w h ts fuel (rest ++ enq)
              (insert c visited) g' := rfl

/-- The neighbor-processing pass of `propagate_constraints` always
returns (no uncaught `StopIteration` when collapsed cells have nonempty
candidate sets); on the early-failure return some in-bounds uncollapsed
cell has just been left with an empty candidate set; on the normal
return no cell's candidate set was emptied, collapsed cells were not
touched, and at most one coordinate per processed neighbor was
enqueued.  Collapsed flags are never changed. -/
theorem propStep_spec (w h : Int) (ts : TileSet) (cur : Cell)
    (hcur : cur.collapsed = true → cur.possibilities ≠ ∅) :
    ∀ (ns : List Coord) (grid : Coord → Cell),
      ∃ r, WaveFunctionCollapse.propStep w h ts cur grid ns = some r ∧
        (∀ g', r = Except.error g' →
          (∀ c, (g' c).collapsed = (grid c).collapsed) ∧
          ∃ c ∈ WaveFunctionCollapse.boundsFinset w h,
            (g' c).collapsed = false ∧ (g' c).possibilities = ∅) ∧
        (∀ g' enq, r = Except.ok (g', enq) →
          (∀ c, (g' c).collapsed = (grid c).collapsed) ∧
          (∀ c, (g' c).possibilities = ∅ → (grid c).possibilities = ∅) ∧
          (∀ c, (grid c).collapsed = true → g' c = grid c) ∧
          enq.length ≤ ns.length) := by
  intro ns
  induction ns with
  | nil =>
    intro grid
    refine ⟨Except.ok (grid, []), rfl, fun g' hg' => by simp at hg', ?_⟩
    intro g' enq hg'
    injection hg' with hg'
    injection hg' with h1 h2
    subst h1
    subst h2
    exact ⟨fun _ => rfl, fun _ hc => hc, fun _ _ => rfl, by simp⟩
  | cons n ns ih =>
    intro grid
    rcases hcell : WaveFunctionCollapse.cellAt w h grid n with _ | nb
    · obtain ⟨r, hr, herr, hok⟩ := ih grid
      refine ⟨r, by simp only [propStep_cons, hcell]; exact hr, herr, ?_⟩
      intro g' enq hg'
      obtain ⟨h1, h2, h3, h4⟩ := hok g' enq hg'
      exact ⟨h1, h2, h3, le_trans h4 (by simp)⟩
    · obtain ⟨hnB, hnbeq⟩ := cellAt_eq_some.mp hcell
      by_cases hcol : nb.collapsed = true
      · obtain ⟨r, hr, herr, hok⟩ := ih grid
        refine ⟨r, by simp only [propStep_cons, hcell]; rw [if_pos hcol]; exact hr,
          herr, ?_⟩
        intro g' enq hg'
        obtain ⟨h1, h2, h3, h4⟩ := hok g' enq hg'
        exact ⟨h1, h2, h3, le_trans h4 (by simp)⟩
      · have hnbF : nb.collapsed = false := by
          cases hb : nb.collapsed
          · rfl
          · exact absurd hb hcol
        obtain ⟨v, hv⟩ := validForNeighbor_isSome ts hcur
        set grid2 : Coord → Cell := fun c =>
          if c = n then { nb with possibilities := nb.possibilities ∩ v }
          else grid c with hgrid2
        have hA : ∀ c, (grid2 c).collapsed = (grid c).collapsed := by
          intro c
          by_cases hcn : c = n
          · subst hcn
            simp [hgrid2, hnbeq]
          · simp [hgrid2, hcn]
        have hC : ∀ c, (grid c).collapsed = true → grid2 c = grid c := by
          intro c hcc
          by_cases hcn : c = n
          · subst hcn
            rw [hnbeq] at hcol
            exact absurd hcc hcol
          · simp [hgrid2, hcn]
        by_cases h0 : nb.possibilities ∩ v = ∅
        · refine ⟨Except.error grid2, ?_, ?_, ?_⟩
          · simp only [propStep_cons, hcell, hv]
            rw [if_neg hcol, if_pos h0]
          · intro g' hg'
            injection hg' with hg'
            subst hg'
            refine ⟨hA, n, hnB, ?_, ?_⟩
            · simp [hgrid2, hnbF]
            · simp [hgrid2, h0]
          · intro g' enq hg'
            exact absurd hg' (by simp)
        · have hB : ∀ c, (grid2 c).possibilities = ∅ → (grid c).possibilities = ∅ := by
            intro c hcc
            by_cases hcn : c = n
            · subst hcn
              simp [hgrid2] at hcc
              exact absurd hcc h0
            · simpa [hgrid2, hcn] using hcc
          by_cases hsame : nb.possibilities ∩ v = nb.possibilities
          · obtain ⟨r, hr, herr, hok⟩ := ih grid2
            refine ⟨r, ?_, ?_, ?_⟩
            · simp only [propStep_cons, hcell, hv]
              rw [if_neg hcol, if_neg h0, if_pos hsame]
              exact hr
            · intro g' hg'
              obtain ⟨hf, hex⟩ := herr g' hg'
              exact ⟨fun c => (hf c).trans (hA c), hex⟩
            · intro g' enq hg'
              obtain ⟨f1, f2, f3, f4⟩ := hok g' enq hg'
              refine ⟨fun c => (f1 c).trans (hA c), fun c hc => hB c (f2 c hc),
                ?_, le_trans f4 (by simp)⟩
              intro c hcc
              have hcc2 : (grid2 c).collapsed = true := (hA c).symm ▸ hcc
              exact (f3 c hcc2).trans (hC c hcc)
          · obtain ⟨r, hr, herr, hok⟩ := ih grid2
            rcases r with g0 | ⟨g0, enq0⟩
            · obtain ⟨hf, hex⟩ := herr g0 rfl
              refine ⟨Except.error g0, ?_, ?_, ?_⟩
              · simp only [propStep_cons, hcell, hv]
                rw [if_neg hcol, if_neg h0, if_neg hsame, hr]
              · intro g' hg'
                injection hg' with hg'
                subst hg'
                exact ⟨fun c => (hf c).trans (hA c), hex⟩
              · intro g' enq hg'
                exact absurd hg' (by simp)
            · obtain ⟨f1, f2, f3, f4⟩ := hok g0 enq0 rfl
              refine ⟨Except.ok (g0, n :: enq0), ?_, ?_, ?_⟩
              · simp only [propStep_cons, hcell, hv]
                rw [if_neg hcol, if_neg h0, if_neg hsame, hr]
              · intro g' hg'
                exact absurd hg' (by simp)
              · intro g' enq hg'
                injection hg' with hg'
                injection hg' with he1 he2
                subst he1
                subst he2
                refine ⟨fun c => (f1 c).trans (hA c), fun c hc => hB c (f2 c hc),
                  ?_, by simpa using Nat.succ_le_succ f4⟩
                intro c hcc
                have hcc2 : (grid2 c).collapsed = true := (hA c).symm ▸ hcc
                exact (f3 c hcc2).trans (hC c hcc)

theorem propLoop_cons_step (w h : Int) (ts : TileSet) (fuel : Nat) (c : Coord)
    (rest : List Coord) (visited : Finset Coord) (grid : Coord → Cell)
    (cur : Cell) (hvis : c ∉ visited)
    (hcell : WaveFunctionCollapse.cellAt w h grid c = some cur) :
    WaveFunctionCollapse.propLoop w h ts (fuel + 1) (c :: rest) visited grid =
      match WaveFunctionCollapse.propStep w h ts cur grid
          (WaveFunctionCollapse.neighborCoords w h c.1 c.2) with
      | none => none
      | some (Except.error g') => some (false, g')
      | some (Except.ok (g', enq)) =>
        WaveFunctionCollapse.propLoop w h ts fuel (rest ++ enq)
          (insert c visited) g' := by
  rw [propLoop_cons, if_neg hvis, hcell]

/-- The breadth-first loop of `propagate_constraints` terminates within
the `propMeasure` potential, preserving collapsed flags; failure leaves
some in-bounds uncollapsed cell with an emptied candidate set, and
success empties no candidate set at all. -/
theorem propLoop_spec (w h : Int) (ts : TileSet) :
    ∀ (fuel : Nat) (queue : List Coord) (visited : Finset Coord)
      (grid : Coord → Cell),
      WaveFunctionCollapse.propMeasure w h queue visited ≤ fuel →
      (∀ c ∈ WaveFunctionCollapse.boundsFinset w h,
        (grid c).collapsed = true → (grid c).possibilities ≠ ∅) →
      ∃ b g', WaveFunctionCollapse.propLoop w h ts fuel queue visited grid =
          some (b, g') ∧
        (∀ c, (g' c).collapsed = (grid c).collapsed) ∧
        (b = false → ∃ c ∈ WaveFunctionCollapse.boundsFinset w h,
          (g' c).collapsed = false ∧ (g' c).possibilities = ∅) ∧
        (b = true → ∀ c, (g' c).possibilities = ∅ →
          (grid c).possibilities = ∅) := by
  intro fuel
  induction fuel with
  | zero =>
    intro queue visited grid hm _
    cases queue with
    | nil =>
      exact ⟨true, grid, propLoop_nil .., fun _ => rfl,
        fun hb => absurd hb (by simp), fun _ _ hc => hc⟩
    | cons c rest =>
      exact absurd hm (by simp [WaveFunctionCollapse.propMeasure])
  | succ f ih =>
    intro queue visited grid hm hwf
    cases queue with
    | nil =>
      exact ⟨true, grid, propLoop_nil .., fun _ => rfl,
        fun hb => absurd hb (by simp), fun _ _ hc => hc⟩
    | cons c rest =>
      by_cases hvis : c ∈ visited
      · rw [propLoop_cons, if_pos hvis]
        refine ih rest visited grid ?_ hwf
        simp only [WaveFunctionCollapse.propMeasure, List.length_cons] at hm ⊢
        omega
      · rcases hcell : WaveFunctionCollapse.cellAt w h grid c with _ | cur
        · rw [propLoop_cons, if_neg hvis, hcell]
          have hsub : WaveFunctionCollapse.boundsFinset w h \ insert c visited ⊆
              WaveFunctionCollapse.boundsFinset w h \ visited :=
            Finset.sdiff_subset_sdiff (le_refl _) (Finset.subset_insert c visited)
          refine ih rest (insert c visited) grid ?_ hwf
          have := Finset.card_le_card hsub
          simp only [WaveFunctionCollapse.propMeasure, List.length_cons] at hm ⊢
          omega
        · obtain ⟨hcB, hcureq⟩ := cellAt_eq_some.mp hcell
          have hcur : cur.collapsed = true → cur.possibilities ≠ ∅ := by
            rw [hcureq]
            exact hwf c hcB
          obtain ⟨r, hr, herr, hok⟩ :=
            propStep_spec w h ts cur hcur
              (WaveFunctionCollapse.neighborCoords w h c.1 c.2) grid
          rw [propLoop_cons_step w h ts f c rest visited grid cur hvis hcell, hr]
          rcases r with g' | ⟨g', enq⟩
          · obtain ⟨hf, hex⟩ := herr g' rfl
            exact ⟨false, g', rfl, hf, fun _ => hex,
              fun hb => absurd hb (by simp)⟩
          · obtain ⟨f1, f2, f3, f4⟩ := hok g' enq rfl
            have hsub : WaveFunctionCollapse.boundsFinset w h \ insert c visited ⊆
                WaveFunctionCollapse.boundsFinset w h \ visited :=
              Finset.sdiff_subset_sdiff (le_refl _) (Finset.subset_insert c visited)
            have hcBV : c ∈ WaveFunctionCollapse.boundsFinset w h \ visited :=
              Finset.mem_sdiff.mpr ⟨hcB, hvis⟩
            have hcard :
                (WaveFunctionCollapse.boundsFinset w h \ insert c visited).card <
                (WaveFunctionCollapse.boundsFinset w h \ visited).card := by
              refine Finset.card_lt_card ?_
              rw [Finset.ssubset_iff_of_subset hsub]
              exact ⟨c, hcBV, by simp [Finset.mem_sdiff]⟩
            have hlen4 : enq.length ≤ 4 :=
              le_trans f4 (neighborCoords_length_le w h c.1 c.2)
            have hwf2 : ∀ c' ∈ WaveFunctionCollapse.boundsFinset w h,
                (g' c').collapsed = true → (g' c').possibilities ≠ ∅ := by
              intro c' hc'B hc'col
              have hgc : (grid c').collapsed = true := (f1 c').symm.trans hc'col
              rw [f3 c' hgc]
              exact hwf c' hc'B hgc
            have hmeas :
                WaveFunctionCollapse.propMeasure w h (rest ++ enq)
                  (insert c visited) ≤ f := by
              simp only [WaveFunctionCollapse.propMeasure, List.length_cons,
                List.length_append] at hm ⊢
              omega
            obtain ⟨b, g'', hloop, flags2, hfalse2, htrue2⟩ :=
              ih (rest ++ enq) (insert c visited) g' hmeas hwf2
            refine ⟨b, g'', hloop, fun c' => (flags2 c').trans (f1 c'),
              hfalse2, ?_⟩
            intro hb c' hc'
            exact f2 c' (htrue2 hb c' hc')

/-- C1: for every grid state satisfying the cell invariant (a collapsed
cell holds at least its one tile) and every starting coordinate,
`propagate_constraints` returns without fault; it reports failure
exactly on the branch that just emptied some uncollapsed neighbor's
candidate set (that cell is left empty in the returned grid, and the
source returns at the first such emptying), and on success no cell's
candidate set was emptied by the pass — any empty candidate set in the
result was already empty before.  Collapsed flags are untouched either
way. -/
theorem propagate_constraints_spec (s : WaveFunctionCollapse)
    (start_x start_y : Int)
    (hwf : ∀ c ∈ WaveFunctionCollapse.boundsFinset s.width s.height,
      (s.grid c).collapsed = true → (s.grid c).possibilities ≠ ∅) :
    ∃ ok s', s.propagate_constraints start_x start_y = some (ok, s') ∧
      (∀ c, (s'.grid c).collapsed = (s.grid c).collapsed) ∧
      (ok = false → ∃ c ∈ WaveFunctionCollapse.boundsFinset s.width s.height,
        (s'.grid c).collapsed = false ∧ (s'.grid c).possibilities = ∅) ∧
      (ok = true → ∀ c, (s'.grid c).possibilities = ∅ →
        (s.grid c).possibilities = ∅) := by
  obtain ⟨b, g', hloop, hflags, hfalse, htrue⟩ :=
    propLoop_spec s.width s.height s.tileset
      (WaveFunctionCollapse.propFuel s.width s.height)
      [(start_x, start_y)] ∅ s.grid
      (by simp [WaveFunctionCollapse.propMeasure, WaveFunctionCollapse.propFuel])
      hwf
  refine ⟨b, { s with grid := g' }, ?_, hflags, hfalse, htrue⟩
  unfold WaveFunctionCollapse.propagate_constraints
  rw [hloop]

theorem propagate_constraints_witness :
    (∀ c ∈ WaveFunctionCollapse.boundsFinset twoByOneWaterCollapsed.width
        twoByOneWaterCollapsed.height,
      (twoByOneWaterCollapsed.grid c).collapsed = true →
      (twoByOneWaterCollapsed.grid c).possibilities ≠ ∅) ∧
    (∃ ok s', twoByOneWaterCollapsed.propagate_constraints 0 0 = some (ok, s') ∧
      (∀ c, (s'.grid c).collapsed = (twoByOneWaterCollapsed.grid c).collapsed) ∧
      (ok = false → ∃ c ∈ WaveFunctionCollapse.boundsFinset
          twoByOneWaterCollapsed.width twoByOneWaterCollapsed.height,
        (s'.grid c).collapsed = false ∧ (s'.grid c).possibilities = ∅) ∧
      (ok = true → ∀ c, (s'.grid c).possibilities = ∅ →
        (twoByOneWaterCollapsed.grid c).possibilities = ∅)) :=
  ⟨by decide, propagate_constraints_spec twoByOneWaterCollapsed 0 0 (by decide)⟩

/-- C5: `validate_constraints` returns true iff every declared pair
`A → B` has `B → A` declared and `B` present in the catalog; it is a
total boolean (false on violation, no exception), and whenever it
returns true the relation is symmetric:
`B ∈ valid_neighbors(A) ↔ A ∈ valid_neighbors(B)`. -/
theorem validate_constraints_spec (ts : TileSet) :
    (ts.validate_constraints = true ↔
      ∀ a b : TileType, b ∈ ts.constraints a → a ∈ ts.constraints b ∧ b ∈ ts.tiles) ∧
    (ts.validate_constraints = true →
      ∀ a b : TileType,
        b ∈ ts.get_valid_neighbors a ↔ a ∈ ts.get_valid_neighbors b) := by
  have hmain : ts.validate_constraints = true ↔
      ∀ a b : TileType, b ∈ ts.constraints a → a ∈ ts.constraints b ∧ b ∈ ts.tiles := by
    unfold TileSet.validate_constraints
    rw [List.all_eq_true]
    constructor
    · intro hall a b hb
      have := hall a (mem_tileTypeList a)
      rw [List.all_eq_true] at this
      have := this b (mem_finsetToList.mpr hb)
      simpa using this
    · intro hsym a _
      rw [List.all_eq_true]
      intro b hb
      have := hsym a b (mem_finsetToList.mp hb)
      simpa using this
  refine ⟨hmain, fun hv a b => ?_⟩
  rw [hmain] at hv
  unfold TileSet.get_valid_neighbors
  exact ⟨fun h => (hv a b h).1, fun h => (hv b a h).1⟩

theorem validate_constraints_witness :
    (oceanBiomeTileSet.validate_constraints = true ↔
      ∀ a b : TileType,
        b ∈ oceanBiomeTileSet.constraints a →
          a ∈ oceanBiomeTileSet.constraints b ∧ b ∈ oceanBiomeTileSet.tiles) ∧
    (oceanBiomeTileSet.validate_constraints = true →
      ∀ a b : TileType,
        b ∈ oceanBiomeTileSet.get_valid_neighbors a ↔
          a ∈ oceanBiomeTileSet.get_valid_neighbors b) :=
  validate_constraints_spec oceanBiomeTileSet

/-- C8: a cell's entropy is 0 when it is collapsed and the size of its
candidate set when it is not. -/
theorem cell_entropy_spec (c : Cell) :
    (c.collapsed = true → c.entropy = 0) ∧
    (c.collapsed = false → c.entropy = c.possibilities.card) := by
  constructor <;> intro h <;> simp [Cell.entropy, h]

theorem cell_entropy_witness :
    (({ x := 0, y := 0, possibilities := {TileType.WATER}, collapsed := true } :
        Cell).collapsed = true →
      ({ x := 0, y := 0, possibilities := {TileType.WATER}, collapsed := true } :
        Cell).entropy = 0) ∧
    ((({ x := 0, y := 0, possibilities := {TileType.WATER}, collapsed := true } :
        Cell).entropy = 0) ∧
      (({ x := 0, y := 0, possibilities := allTileTypes, collapsed := false } :
        Cell).entropy =
        ({ x := 0, y := 0, possibilities := allTileTypes, collapsed := false } :
          Cell).possibilities.card)) :=
  ⟨(cell_entropy_spec _).1,
   (cell_entropy_spec _).1 rfl,
   (cell_entropy_spec _).2 rfl⟩

/-- C10: `collapse_to` on a tile type outside the candidate set returns
`False` and leaves the cell unchanged; on a member it returns `True`,
sets the candidate set to that singleton, and marks the cell
collapsed. -/
theorem collapse_to_spec (c : Cell) (t : TileType) :
    (t ∉ c.possibilities → c.collapse_to t = (false, c)) ∧
    (t ∈ c.possibilities →
      c.collapse_to t =
        (true, { c with possibilities := {t}, collapsed := true })) := by
  constructor <;> intro h <;> simp [Cell.collapse_to, h]

theorem collapse_to_witness :
    (TileType.SNOW ∉
        ({ x := 0, y := 0, possibilities := {TileType.WATER, TileType.SAND},
           collapsed := false } : Cell).possibilities) ∧
    (({ x := 0, y := 0, possibilities := {TileType.WATER, TileType.SAND},
        collapsed := false } : Cell).collapse_to TileType.SNOW =
      (false, { x := 0, y := 0, possibilities := {TileType.WATER, TileType.SAND},
                collapsed := false })) ∧
    (({ x := 0, y := 0, possibilities := {TileType.WATER, TileType.SAND},
        collapsed := false } : Cell).collapse_to TileType.WATER =
      (true, { x := 0, y := 0, possibilities := {TileType.WATER},
               collapsed := true })) :=
  ⟨by decide,
   (collapse_to_spec _ _).1 (by decide),
   (collapse_to_spec _ _).2 (by decide)⟩

/-- C9: `get_cell` returns `None` exactly on out-of-bounds coordinates
and the stored cell otherwise; `get_tile_at` returns `None` (not a
fault) whenever the coordinates are out of bounds or the cell there is
not collapsed. -/
theorem get_cell_bounds_spec (s : WaveFunctionCollapse) (x y : Int) :
    (s.get_cell x y = none ↔
      ¬(0 ≤ x ∧ x < s.width ∧ 0 ≤ y ∧ y < s.height)) ∧
    ((0 ≤ x ∧ x < s.width ∧ 0 ≤ y ∧ y < s.height) →
      s.get_cell x y = some (s.grid (x, y))) ∧
    (¬(0 ≤ x ∧ x < s.width ∧ 0 ≤ y ∧ y < s.height) →
      s.get_tile_at x y = some none) ∧
    ((0 ≤ x ∧ x < s.width ∧ 0 ≤ y ∧ y < s.height) →
      (s.grid (x, y)).collapsed = false → s.get_tile_at x y = some none) := by
  unfold WaveFunctionCollapse.get_tile_at WaveFunctionCollapse.get_cell
    WaveFunctionCollapse.cellAt
  by_cases hb : 0 ≤ x ∧ x < s.width ∧ 0 ≤ y ∧ y < s.height
  · refine ⟨by simp [hb], fun _ => by simp [hb], fun h => absurd hb h, fun _ hc => ?_⟩
    simp [hb, hc]
  · exact ⟨by simp [hb], fun h => absurd h hb, fun _ => by simp [hb],
      fun h => absurd h hb⟩

theorem get_cell_bounds_witness :
    (twoByOneDefault.get_cell 2 0 = none ↔
      ¬(0 ≤ (2 : Int) ∧ (2 : Int) < twoByOneDefault.width ∧ 0 ≤ (0 : Int) ∧
        (0 : Int) < twoByOneDefault.height)) ∧
    ((0 ≤ (2 : Int) ∧ (2 : Int) < twoByOneDefault.width ∧ 0 ≤ (0 : Int) ∧
        (0 : Int) < twoByOneDefault.height) →
      twoByOneDefault.get_cell 2 0 = some (twoByOneDefault.grid (2, 0))) ∧
    (¬(0 ≤ (2 : Int) ∧ (2 : Int) < twoByOneDefault.width ∧ 0 ≤ (0 : Int) ∧
        (0 : Int) < twoByOneDefault.height) →
      twoByOneDefault.get_tile_at 2 0 = some none) ∧
    ((0 ≤ (2 : Int) ∧ (2 : Int) < twoByOneDefault.width ∧ 0 ≤ (0 : Int) ∧
        (0 : Int) < twoByOneDefault.height) →
      (twoByOneDefault.grid (2, 0)).collapsed = false →
      twoByOneDefault.get_tile_at 2 0 = some none) :=
  get_cell_bounds_spec twoByOneDefault 2 0

/-- C3: construction fails with the configuration error exactly when the
tileset fails `validate_constraints`; on a validated tileset it succeeds
and every in-bounds cell starts uncollapsed with the full tile-type
domain as its candidate set. -/
theorem mk_wfc_spec (w h : Int) (ts : TileSet) :
    (ts.validate_constraints = false →
      mkWaveFunctionCollapse w h ts = Except.error ConfigErr.invalidTileset) ∧
    (ts.validate_constraints = true →
      ∃ s, mkWaveFunctionCollapse w h ts = Except.ok s ∧
        s.width = w ∧ s.height = h ∧
        ∀ c ∈ WaveFunctionCollapse.boundsFinset w h,
          (s.grid c).collapsed = false ∧
          (s.grid c).possibilities = ts.get_all_types) := by
  constructor
  · intro hv
    simp [mkWaveFunctionCollapse, hv]
  · intro hv
    refine ⟨WaveFunctionCollapse.initialize_grid
      { width := w, height := h, tileset := ts,
        grid := fun _ => { x := 0, y := 0, possibilities := ∅, collapsed := false },
        generation_step := 0, max_retries := 10 }, ?_, rfl, rfl, fun c _ => ?_⟩
    · simp [mkWaveFunctionCollapse, hv]
    · simp [WaveFunctionCollapse.initialize_grid]

theorem mk_wfc_witness :
    (defaultTileSet.validate_constraints = false) ∧
    (mkWaveFunctionCollapse 2 1 defaultTileSet =
      Except.error ConfigErr.invalidTileset) ∧
    (oceanBiomeTileSet.validate_constraints = true) ∧
    (∃ s, mkWaveFunctionCollapse 1 1 oceanBiomeTileSet = Except.ok s ∧
      s.width = 1 ∧ s.height = 1 ∧
      ∀ c ∈ WaveFunctionCollapse.boundsFinset 1 1,
        (s.grid c).collapsed = false ∧
        (s.grid c).possibilities = oceanBiomeTileSet.get_all_types) :=
  ⟨by decide,
   (mk_wfc_spec 2 1 defaultTileSet).1 (by decide),
   by decide,
   (mk_wfc_spec 1 1 oceanBiomeTileSet).2 (by decide)⟩

theorem genAttempts_succ (e : EnumOrder) (ms k : Nat)
    (s : WaveFunctionCollapse) (r : RState) :
    WaveFunctionCollapse.genAttempts e ms (k + 1) s r =
      match WaveFunctionCollapse.genSteps e ms
          (WaveFunctionCollapse.initialize_grid s) r with
      | none => none
      | some (true, s', r') => some (true, s', r')
      | some (false, s', r') =>
        WaveFunctionCollapse.genAttempts e ms k s' r' := rfl

theorem genAttempts_true_iff (e : EnumOrder) (ms : Nat) :
    ∀ (k : Nat) (s : WaveFunctionCollapse) (r : RState) (res : Bool),
      (WaveFunctionCollapse.genAttempts e ms k s r).map (fun x => x.1) =
        some res →
      (res = true ↔ WaveFunctionCollapse.AttemptsSucceed e ms k s r) := by
  intro k
  induction k with
  | zero =>
    intro s r res hres
    have hres' : res = false := by
      have : (some (false, s, r)).map
          (fun x : Bool × WaveFunctionCollapse × RState => x.1) = some res := hres
      simpa using this.symm
    subst hres'
    constructor
    · intro hb
      exact absurd hb (by simp)
    · intro hA
      exact nomatch hA
  | succ k ihk =>
    intro s r res hres
    rcases hstep : WaveFunctionCollapse.genSteps e ms
        (WaveFunctionCollapse.initialize_grid s) r with _ | ⟨b, s', r'⟩
    · rw [genAttempts_succ, hstep] at hres
      simp at hres
    · rw [genAttempts_succ, hstep] at hres
      cases b
      · have := ihk s' r' res hres
        constructor
        · intro hb
          exact WaveFunctionCollapse.AttemptsSucceed.later hstep (this.mp hb)
        · intro hA
          cases hA with
          | here hsteps =>
            rw [hstep] at hsteps
            simp at hsteps
          | later hsteps hA' =>
            rw [hstep] at hsteps
            simp only [Option.some.injEq, Prod.mk.injEq, true_and] at hsteps
            obtain ⟨hs, hr⟩ := hsteps
            subst hs
            subst hr
            exact this.mpr hA'
      · have hres' : res = true := by simpa using hres.symm
        subst hres'
        exact ⟨fun _ => WaveFunctionCollapse.AttemptsSucceed.here hstep,
          fun _ => rfl⟩

/-- C2 (amended): `generate` makes at most `max_retries = 10` attempts,
each stepping a freshly reinitialized grid; it returns `True` iff one of
those attempts halts with a step that observes a complete grid within
the `max_steps` budget (`AttemptsSucceed`).  A grid that becomes fully
collapsed only on the budget's final step — with no further step left to
observe completion — is discarded like a failure (see the
counterexample); exhaustion yields the value `False`, not a fault. -/
theorem generate_true_iff_detected (e : EnumOrder) (s : WaveFunctionCollapse)
    (r : RState) (ms : Nat) (res : Bool)
    (hres : (WaveFunctionCollapse.generate e s r ms).map (fun x => x.1) =
      some res) :
    res = true ↔
      WaveFunctionCollapse.AttemptsSucceed e ms s.max_retries s r :=
  genAttempts_true_iff e ms s.max_retries s r res hres

theorem generate_true_iff_detected_witness :
    ((WaveFunctionCollapse.generate enumAsc oceanSolver rngZero 2).map
      (fun x => x.1) = some true) ∧
    (true = true ↔
      WaveFunctionCollapse.AttemptsSucceed enumAsc 2 oceanSolver.max_retries
        oceanSolver rngZero) :=
  ⟨by decide,
   generate_true_iff_detected enumAsc oceanSolver rngZero 2 true (by decide)⟩

/-- C2 counterexample: on a 1 × 1 grid built by the constructor from the
ocean-biome tileset, `generate` with `max_steps = 1` returns `False`,
although the very first attempt reaches a fully collapsed grid within
its single step — completion on the budget's final step is never
observed, so the attempt is discarded and the claim's biconditional
fails as stated. -/
theorem generate_misses_final_step_completion :
    ((mkWaveFunctionCollapse 1 1 oceanBiomeTileSet).toOption.bind fun s =>
      (WaveFunctionCollapse.generate enumAsc s rngZero 1).map fun x => x.1) =
        some false ∧
    ((mkWaveFunctionCollapse 1 1 oceanBiomeTileSet).toOption.bind fun s =>
      (WaveFunctionCollapse.genSteps enumAsc 1
        (WaveFunctionCollapse.initialize_grid s) rngZero).map fun x =>
          WaveFunctionCollapse.is_complete x.2.1) = some true :=
  ⟨by decide, by decide⟩

/-- C7 (amended): two runs that construct solvers from identical
(width, height, tileset, seed) and share the interpreter's candidate-set
enumeration order make the same sequence of random choices and produce
identical results.  Identity of the enumeration order is the hypothesis
the original claim lacks: it is fixed by the interpreter's hash state,
not by the constructor arguments (see the counterexample). -/
theorem generate_reproducible_with_fixed_enum (w h : Int) (ts : TileSet)
    (e : EnumOrder) (r : RState) (ms : Nat) (s1 s2 : WaveFunctionCollapse)
    (h1 : mkWaveFunctionCollapse w h ts = Except.ok s1)
    (h2 : mkWaveFunctionCollapse w h ts = Except.ok s2) :
    WaveFunctionCollapse.generate e s1 r ms =
      WaveFunctionCollapse.generate e s2 r ms := by
  rw [h1] at h2
  injection h2 with h2
  rw [h2]

theorem generate_reproducible_witness :
    WaveFunctionCollapse.generate enumAsc oceanSolver rngZero 10 =
      WaveFunctionCollapse.generate enumAsc oceanSolver rngZero 10 :=
  generate_reproducible_with_fixed_enum 1 1 oceanBiomeTileSet enumAsc rngZero 10
    oceanSolver oceanSolver rfl rfl

/-- C7 counterexample: two runs with identical (width, height, tileset,
seed) — only the interpreter's set-enumeration order differs, both
orders being valid enumerations — produce different final grids: the
tile generated at `(0, 0)` differs.  Bit-identical reproducibility
therefore does not follow from those four parameters alone. -/
theorem generate_not_reproducible_across_enum_orders :
    validEnumOrder enumAsc ∧ validEnumOrder enumDesc ∧
    ((WaveFunctionCollapse.generate enumAsc oceanSolver rngZero).map
        (fun x => (x.1, x.2.1.get_tile_at 0 0)) ≠
      (WaveFunctionCollapse.generate enumDesc oceanSolver rngZero).map
        (fun x => (x.1, x.2.1.get_tile_at 0 0))) :=
  ⟨fun _ _ => mem_finsetToList,
   fun s t => by simp [enumDesc, List.mem_reverse, mem_finsetToList],
   by decide⟩

/-- C6: on a 2 × 1 grid freshly initialized from the default tileset,
collapsing cell `(0, 0)` to WATER and propagating from `(0, 0)` succeeds
and leaves cell `(1, 0)` uncollapsed with candidate set exactly
`{WATER, SAND}`. -/
theorem two_by_one_water_propagation :
    (twoByOneWaterCollapsed.propagate_constraints 0 0).map
      (fun x => (x.1, (x.2.grid (1, 0)).collapsed, (x.2.grid (1, 0)).possibilities))
      = some (true, false, {TileType.WATER, TileType.SAND}) := by
  decide
